import Mathlib

/-!
Shallow embedding of the Lenia stepping core (`src/components/LeniaSimulation.tsx`
together with the species catalog `src/data/species.ts`).

The compute shader works on a 512×512 toroidal float field held in two ping-pong
render targets; one fragment-shader pass is one tick.  We model a cell by a pair
of `ZMod 512` coordinates (the shader samples with `fract`, i.e. wrap-around),
the field by a real-valued function on cells, and float arithmetic by exact real
arithmetic.  The GLSL `int(...)` truncation of the loop radius agrees with
`Int.floor` on the nonnegative radii the code uses.
-/

namespace Lenia

/-- The fixed session resolution (`const resolution = 512`). -/
def resolution : ℕ := 512

/-- A cell of the toroidal grid: sampling coordinates wrap modulo 512. -/
abbrev Cell : Type := ZMod 512 × ZMod 512

/-- One buffer of field state: a scalar per cell. -/
abbrev Field : Type := Cell → ℝ

/-- The uniforms consumed by the compute shader:
`uDt, uR, uMu, uSigma, uKernelSigma, uBeta (vec4), uRingCount`. -/
structure Config where
  dt : ℝ
  R : ℝ
  mu : ℝ
  sigma : ℝ
  kernelSigma : ℝ
  beta : Fin 4 → ℝ
  ringCount : ℕ

/-- GLSL helper `bell(x, mu, sigma)`: `safeSigma = max(sigma, 0.001);
d = (x - mu) / safeSigma; return exp(-d*d/2.0)`. -/
noncomputable def bell (x mu sigma : ℝ) : ℝ :=
  Real.exp (-(((x - mu) / max sigma 0.001) ^ 2) / 2)

/-- Helper: entry `i` of the `uBeta` vector, read as a function on `ℕ`
(entries past index 3 do not exist in the `vec4`). -/
def betaN (cfg : Config) (i : ℕ) : ℝ :=
  if h : i < 4 then cfg.beta ⟨i, h⟩ else 0

/-- GLSL `kernel(r)`: returns `0` for `r >= 1`; otherwise loops `i = 0..3`,
breaking once `i >= uRingCount`, accumulating
`uBeta[i] * exp(-d*d/2)` with `d = (r - (i+0.5)/uRingCount) / max(uKernelSigma, 0.01)`. -/
noncomputable def kernel (cfg : Config) (r : ℝ) : ℝ :=
  if 1 ≤ r then 0
  else ∑ i ∈ Finset.range 4,
    if i < cfg.ringCount then
      betaN cfg i *
        Real.exp (-(((r - ((i : ℝ) + 0.5) / (cfg.ringCount : ℝ)) /
          max cfg.kernelSigma 0.01) ^ 2) / 2)
    else 0

/-- GLSL `growth(u)`: `safeSigma = max(uSigma, 0.001);
d = (u - uMu)/safeSigma; return 2.0 * exp(-d*d/2.0) - 1.0`. -/
noncomputable def growth (cfg : Config) (u : ℝ) : ℝ :=
  2 * Real.exp (-(((u - cfg.mu) / max cfg.sigma 0.001) ^ 2) / 2) - 1

/-- GLSL `clamp(x, lo, hi)`. -/
noncomputable def clamp (x lo hi : ℝ) : ℝ := min (max x lo) hi

/-- `length(vec2(dx, dy))` for an integer offset. -/
noncomputable def dist (dx dy : ℤ) : ℝ := Real.sqrt ((dx : ℝ) ^ 2 + (dy : ℝ) ^ 2)

/-- `int radius = int(min(uR, 50.0))` (truncation = floor on the nonnegative
values the shader encounters). -/
noncomputable def radius (R : ℝ) : ℤ := ⌊min R 50⌋

/-- The sanitization test of the shader: a value participates only when
`v >= 0.0 && v <= 1.0` (NaN fails both comparisons and is likewise excluded). -/
def inRange (v : ℝ) : Prop := 0 ≤ v ∧ v ≤ 1

noncomputable instance : DecidablePred inRange := fun v => by
  unfold inRange
  infer_instance

/-- `texture2D(uState, fract(vUv + vec2(dx, dy) * pixel)).r`: toroidal sampling
at integer offset `(dx, dy)` from cell `p`. -/
def sampleAt (f : Field) (p : Cell) (dx dy : ℤ) : ℝ :=
  f (p.1 + (dx : ZMod 512), p.2 + (dy : ZMod 512))

/-- The guards of the convolution loop: an offset `(dx, dy)` participates when
`abs(dy) <= radius`, `abs(dx) <= radius` and `dist <= uR`
(the shader `continue`s on the negations). -/
def geomOk (R : ℝ) (dx dy : ℤ) : Prop :=
  |dy| ≤ radius R ∧ |dx| ≤ radius R ∧ dist dx dy ≤ R

noncomputable instance (R : ℝ) (dx dy : ℤ) : Decidable (geomOk R dx dy) := by
  unfold geomOk
  infer_instance

/-- Contribution of one loop iteration to `valueSum`: under the loop guards,
`texVal * k` when the sampled value passes the `[0,1]` test, nothing otherwise. -/
noncomputable def termV (cfg : Config) (f : Field) (p : Cell) (dx dy : ℤ) : ℝ :=
  if geomOk cfg.R dx dy then
    if inRange (sampleAt f p dx dy) then
      sampleAt f p dx dy * kernel cfg (dist dx dy / max cfg.R 1)
    else 0
  else 0

/-- Contribution of one loop iteration to `kernelSum`: under the loop guards,
`k` when the sampled value passes the `[0,1]` test, nothing otherwise. -/
noncomputable def termK (cfg : Config) (f : Field) (p : Cell) (dx dy : ℤ) : ℝ :=
  if geomOk cfg.R dx dy then
    if inRange (sampleAt f p dx dy) then
      kernel cfg (dist dx dy / max cfg.R 1)
    else 0
  else 0

/-- `valueSum` accumulated by the double loop `dy, dx ∈ [-50, 50]`. -/
noncomputable def valueSum (cfg : Config) (f : Field) (p : Cell) : ℝ :=
  ∑ dy ∈ Finset.Icc (-50 : ℤ) 50, ∑ dx ∈ Finset.Icc (-50 : ℤ) 50, termV cfg f p dx dy

/-- `kernelSum` accumulated by the double loop `dy, dx ∈ [-50, 50]`. -/
noncomputable def kernelSum (cfg : Config) (f : Field) (p : Cell) : ℝ :=
  ∑ dy ∈ Finset.Icc (-50 : ℤ) 50, ∑ dx ∈ Finset.Icc (-50 : ℤ) 50, termK cfg f p dx dy

/-- `float u = kernelSum > 0.001 ? valueSum / kernelSum : 0.0`. -/
noncomputable def potential (cfg : Config) (f : Field) (p : Cell) : ℝ :=
  if 0.001 < kernelSum cfg f p then valueSum cfg f p / kernelSum cfg f p else 0

/-- One tick of the compute shader at one cell:
`current` is re-read at `vUv`, replaced by `0` unless `current >= 0 && current <= 1`,
and the new state is `clamp(current + uDt * growth(u), 0.0, 1.0)`. -/
noncomputable def step (cfg : Config) (f : Field) : Field := fun p =>
  clamp ((if inRange (f p) then f p else 0) + cfg.dt * growth cfg (potential cfg f p)) 0 1

/-- Translation of a field on the torus by an offset `s`. -/
def translate (s : Cell) (f : Field) : Field := fun p => f (p + s)

/-- The modes accepted by `initField(mode, spec?)`: the strings
`'clear'`, `'seed'`, `'species'` (with a pattern), and every other string
(the `else` branch, used as `'random'`). -/
inductive InitMode
  | clear
  | seed
  | speciesPattern
  | random

/-- `Math.floor((resolution - w) / 2)`, the centering offset used when
stamping an explicit pattern. -/
noncomputable def centerOffset (w : ℕ) : ℤ := ⌊((512 : ℝ) - (w : ℝ)) / 2⌋

/-- The `Float32Array` red-channel contents written by `initField`, one value
per cell `(x, y)` with `x, y < 512`; `rng` models the per-cell `Math.random()`
stream and `pat` is the explicit pattern of the species branch (`p[0].length`
is read off the first row; an empty pattern stamps nothing). -/
noncomputable def initData (mode : InitMode) (pat : List (List ℝ)) (rng : ℕ → ℕ → ℝ)
    (x y : ℕ) : ℝ :=
  match mode with
  | InitMode.clear => 0
  | InitMode.seed =>
      if Real.sqrt (((x : ℝ) - 256) ^ 2 + ((y : ℝ) - 256) ^ 2) < 20 then
        Real.exp ((-(Real.sqrt (((x : ℝ) - 256) ^ 2 + ((y : ℝ) - 256) ^ 2)) ^ 2) /
          (20 * 20 * 0.3)) * 0.8
      else 0
  | InitMode.speciesPattern =>
      if 0 ≤ (x : ℤ) - centerOffset ((pat.get? 0).getD []).length ∧
          (x : ℤ) - centerOffset ((pat.get? 0).getD []).length < (((pat.get? 0).getD []).length : ℤ) ∧
          0 ≤ (y : ℤ) - centerOffset pat.length ∧
          (y : ℤ) - centerOffset pat.length < (pat.length : ℤ) then
        (((pat.get? ((y : ℤ) - centerOffset pat.length).toNat).getD []).get?
          ((x : ℤ) - centerOffset ((pat.get? 0).getD []).length).toNat).getD 0
      else 0
  | InitMode.random =>
      if Real.sqrt (((x : ℝ) - 256) ^ 2 + ((y : ℝ) - 256) ^ 2) < 60 then
        rng x y * 0.5 + 0.25
      else 0

/-- The field produced by `initField`: the same data is rendered into both
ping-pong buffers, so initialization is fully described by one field. -/
noncomputable def initField (mode : InitMode) (pat : List (List ℝ))
    (rng : ℕ → ℕ → ℝ) : Field :=
  fun p => initData mode pat rng p.1.val p.2.val

/-- One catalog entry of `src/data/species.ts`.  The generated `pattern`
field is omitted: `loadSpecies` never passes it on (it always initializes in
`'random'` mode), and the explicit-pattern branch of `initField` above takes
its pattern as an argument. -/
structure Species where
  name : String
  R : ℝ
  mu : ℝ
  sigma : ℝ
  kernelSigma : Option ℝ
  beta : Option (List ℝ)

noncomputable def orbium : Species :=
  ⟨"Orbium", 13, 0.15, 0.015, some 0.15, some [1]⟩

noncomputable def orbiumBicaudatus : Species :=
  ⟨"Orbium bicaudatus", 13, 0.156, 0.016, some 0.15, some [1, 0.5]⟩

noncomputable def gyrorbium : Species :=
  ⟨"Gyrorbium", 13, 0.14, 0.014, some 0.15, some [1]⟩

noncomputable def scutium : Species :=
  ⟨"Scutium", 13, 0.21, 0.022, some 0.15, some [1]⟩

noncomputable def helix : Species :=
  ⟨"Helix", 15, 0.18, 0.02, some 0.12, some [1, 0.6, 0.3]⟩

noncomputable def hydrogeminium : Species :=
  ⟨"Hydrogeminium", 10, 0.27, 0.025, some 0.18, some [1, 0.4]⟩

noncomputable def pentafolium : Species :=
  ⟨"Pentafolium", 12, 0.19, 0.019, some 0.14, some [1, 0.3, 0.1]⟩

noncomputable def paramecia : Species :=
  ⟨"Paramecia", 18, 0.12, 0.014, some 0.15, some [1]⟩

noncomputable def smoothLife : Species :=
  ⟨"SmoothLife", 21, 0.19, 0.033, some 0.15, some [1, 0]⟩

noncomputable def primordialSoup : Species :=
  ⟨"Primordial Soup", 10, 0.35, 0.07, some 0.2, some [1, 0.5, 0.25]⟩

noncomputable def microbia : Species :=
  ⟨"Microbia", 7, 0.22, 0.018, some 0.12, some [1]⟩

noncomputable def oceania : Species :=
  ⟨"Oceania", 25, 0.11, 0.012, some 0.18, some [1, 0.7, 0.4]⟩

noncomputable def luminara : Species :=
  ⟨"Luminara", 14, 0.17, 0.018, some 0.14, some [1, 0.3]⟩

/-- The immutable catalog `export const species: Species[]`, in source order. -/
noncomputable def speciesList : List Species :=
  [orbium, orbiumBicaudatus, gyrorbium, scutium, helix, hydrogeminium,
   pentafolium, paramecia, smoothLife, primordialSoup, microbia, oceania, luminara]

/-- `species.find(s => s.name === name)`. -/
noncomputable def findSpecies (name : String) : Option Species :=
  speciesList.find? (fun sp => sp.name == name)

/-- The leva-held parameters that `loadSpecies` can overwrite via `setParams`,
plus `dt` (which it never touches). -/
structure Params where
  dt : ℝ
  R : ℝ
  mu : ℝ
  sigma : ℝ
  kernelSigma : ℝ
  rings : ℕ
  beta1 : ℝ
  beta2 : ℝ
  beta3 : ℝ
  beta4 : ℝ

/-- The initial control values (`R=13, μ=0.15, σ=0.015, kernelSigma=0.15,
1 ring, β=(1,0,0,0), dt=0.1`). -/
noncomputable def params0 : Params :=
  { dt := 0.1, R := 13, mu := 0.15, sigma := 0.015, kernelSigma := 0.15,
    rings := 1, beta1 := 1, beta2 := 0, beta3 := 0, beta4 := 0 }

/-- The state the species loader acts on: the current parameters and the
current field contents. -/
abbrev SimState : Type := Params × Field

/-- The `setParams({...})` call of `loadSpecies`: JavaScript
`spec.kernelSigma || 0.15` treats `0` as falsy, `spec.beta?.length || 1`
maps a missing or empty list to `1`, and `spec.beta?.[i] ?? d` defaults a
missing entry. -/
noncomputable def applySpecies (sp : Species) (pr : Params) : Params :=
  { pr with
    R := sp.R, mu := sp.mu, sigma := sp.sigma,
    kernelSigma :=
      match sp.kernelSigma with
      | none => 0.15
      | some k => if k = 0 then 0.15 else k,
    rings :=
      match sp.beta with
      | none => 1
      | some l => if l.length = 0 then 1 else l.length,
    beta1 := (sp.beta.bind (fun l => l.get? 0)).getD 1,
    beta2 := (sp.beta.bind (fun l => l.get? 1)).getD 0,
    beta3 := (sp.beta.bind (fun l => l.get? 2)).getD 0,
    beta4 := (sp.beta.bind (fun l => l.get? 3)).getD 0 }

/-- `loadSpecies(name)`: on a missing catalog entry it returns with no state
change and no controller callback; on success it applies the preset's
parameters, fires `onSpeciesChange?.(name)` (the only controller-visible
outcome), and schedules `initField('random')` — unconditionally the random
mode (the source comments "Use random init - more stable than small preset
patterns"). -/
noncomputable def loadSpecies (name : String) (st : SimState) (rng : ℕ → ℕ → ℝ) :
    SimState × Option String :=
  match findSpecies name with
  | none => (st, none)
  | some sp => ((applySpecies sp st.1, initField InitMode.random [] rng), some name)

/-- The all-zero `Math.random()` stream, for concrete evaluations. -/
def rng0 : ℕ → ℕ → ℝ := fun _ _ => 0

/-- A concrete starting state: initial parameters over the all-zero field. -/
noncomputable def st0 : SimState := (params0, fun _ => 0)

/-- A configuration with `μ > 0` but `μ` far below `σ`, so that
`growth(0) > 0` (`dt=0.1, R=13, μ=0.001, σ=0.1`). -/
noncomputable def cfg7bad : Config :=
  { dt := 0.1, R := 13, mu := 0.001, sigma := 0.1, kernelSigma := 0.15,
    beta := ![1, 0, 0, 0], ringCount := 1 }

/-- The configuration of the sampled-anomaly counterexample:
`dt=0.1, R=1.5, μ=1, σ=0.001, kernelSigma=0.15, β=(1,0,0,0), 1 ring`. -/
noncomputable def cfg5 : Config :=
  { dt := 0.1, R := 1.5, mu := 1, sigma := 0.001, kernelSigma := 0.15,
    beta := ![1, 0, 0, 0], ringCount := 1 }

/-- The cell holding the anomalous value in the C5 counterexample. -/
def a0 : Cell := (1, 0)

/-- A field that is `1` everywhere except for one out-of-range value `2` at
`a0`. -/
noncomputable def fieldA : Field := fun q => if q = a0 then 2 else 1

/-- A fixed configuration matching the shader's initial uniforms and the
control panel's initial values (Orbium: `dt=0.1, R=13, μ=0.15, σ=0.015,
kernelSigma=0.15, β=(1,0,0,0), 1 ring`). -/
noncomputable def cfg0 : Config :=
  { dt := 0.1, R := 13, mu := 0.15, sigma := 0.015, kernelSigma := 0.15,
    beta := ![1, 0, 0, 0], ringCount := 1 }

/-- The origin cell. -/
def p0 : Cell := (0, 0)

lemma clamp01_nonneg (x : ℝ) : 0 ≤ clamp x 0 1 :=
  le_min (le_max_right x 0) zero_le_one

lemma clamp01_le_one (x : ℝ) : clamp x 0 1 ≤ 1 := min_le_right _ _

lemma step_mem_unit (cfg : Config) (f : Field) (p : Cell) :
    0 ≤ step cfg f p ∧ step cfg f p ≤ 1 :=
  ⟨clamp01_nonneg _, clamp01_le_one _⟩

/-- Claim C1: for every configuration and every starting field, after any
positive number of ticks every cell value of the current buffer lies in
`[0, 1]`; each tick writes `clamp(current + dt·growth(u), 0, 1)` to the cell. -/
theorem step_iterate_mem_unitInterval (cfg : Config) (f : Field) (n : ℕ)
    (hn : 1 ≤ n) (p : Cell) :
    (0 ≤ ((step cfg)^[n] f) p ∧ ((step cfg)^[n] f) p ≤ 1) ∧
    ((step cfg)^[n] f) p =
      clamp ((if inRange (((step cfg)^[n - 1] f) p) then ((step cfg)^[n - 1] f) p else 0) +
        cfg.dt * growth cfg (potential cfg ((step cfg)^[n - 1] f) p)) 0 1 := by
  obtain ⟨m, rfl⟩ : ∃ m, n = m + 1 := ⟨n - 1, by omega⟩
  rw [Function.iterate_succ_apply']
  exact ⟨step_mem_unit cfg _ p, by simp [step]⟩

/-- Witness for C1 at a concrete configuration, field and tick count. -/
theorem step_iterate_mem_unitInterval_witness :
    0 ≤ ((step cfg0)^[1] (fun _ => 0)) p0 ∧ ((step cfg0)^[1] (fun _ => 0)) p0 ≤ 1 :=
  (step_iterate_mem_unitInterval cfg0 (fun _ => 0) 1 (Nat.le_refl 1) p0).1

lemma max_max_001 (q : ℝ) : max (max q 0.01) 0.001 = max q 0.01 := by
  rw [max_eq_left]
  exact le_trans (by norm_num) (le_max_right q 0.01)

lemma kernel_eq_bell_sum (cfg : Config) (r : ℝ) (h : r < 1) (hrc4 : cfg.ringCount ≤ 4) :
    kernel cfg r =
      ∑ i ∈ Finset.range cfg.ringCount,
        betaN cfg i * bell r (((i : ℝ) + 0.5) / (cfg.ringCount : ℝ)) (max cfg.kernelSigma 0.01) := by
  rw [kernel, if_neg (by linarith)]
  have h1 : ∀ i ∈ Finset.range 4,
      (if i < cfg.ringCount then
        betaN cfg i *
          Real.exp (-(((r - ((i : ℝ) + 0.5) / (cfg.ringCount : ℝ)) /
            max cfg.kernelSigma 0.01) ^ 2) / 2)
      else 0) =
      (if i < cfg.ringCount then
        betaN cfg i * bell r (((i : ℝ) + 0.5) / (cfg.ringCount : ℝ)) (max cfg.kernelSigma 0.01)
      else 0) := by
    intro i _
    by_cases hi : i < cfg.ringCount
    · rw [if_pos hi, if_pos hi, bell, max_max_001]
    · rw [if_neg hi, if_neg hi]
  rw [Finset.sum_congr rfl h1, ← Finset.sum_filter]
  have hset : (Finset.range 4).filter (· < cfg.ringCount) = Finset.range cfg.ringCount := by
    ext i
    simp only [Finset.mem_filter, Finset.mem_range]
    omega
  rw [hset]

lemma kernel_nonneg (cfg : Config) (r : ℝ) (hb : ∀ i : Fin 4, 0 ≤ cfg.beta i) :
    0 ≤ kernel cfg r := by
  rw [kernel]
  split
  · exact le_refl 0
  · apply Finset.sum_nonneg
    intro i _
    by_cases hi : i < cfg.ringCount
    · rw [if_pos hi]
      refine mul_nonneg ?_ (Real.exp_pos _).le
      unfold betaN
      split
      · exact hb _
      · exact le_refl 0
    · rw [if_neg hi]

/-- Claim C3: the kernel returns `0` for normalized radius `r ≥ 1`; otherwise
it returns `∑ i < ringCount, β[i] · bell(r, (i+0.5)/ringCount, kernelSigma)`
with `kernelSigma` floored at `0.01`; with nonnegative ring weights it is
nonnegative everywhere. -/
theorem kernel_ring_sum_nonneg (cfg : Config) (r : ℝ)
    (hrc : 1 ≤ cfg.ringCount ∧ cfg.ringCount ≤ 4)
    (hb : ∀ i : Fin 4, 0 ≤ cfg.beta i) :
    (1 ≤ r → kernel cfg r = 0) ∧
    (r < 1 → kernel cfg r =
      ∑ i ∈ Finset.range cfg.ringCount,
        betaN cfg i * bell r (((i : ℝ) + 0.5) / (cfg.ringCount : ℝ)) (max cfg.kernelSigma 0.01)) ∧
    0 ≤ kernel cfg r :=
  ⟨fun h => by simp [kernel, h],
   fun h => kernel_eq_bell_sum cfg r h hrc.2,
   kernel_nonneg cfg r hb⟩

/-- Witness for C3 at the Orbium configuration and `r = 1/2`. -/
theorem kernel_ring_sum_nonneg_witness :
    (1 ≤ cfg0.ringCount ∧ cfg0.ringCount ≤ 4) ∧ (∀ i : Fin 4, 0 ≤ cfg0.beta i) ∧
    ((1 : ℝ) ≤ 2 → kernel cfg0 2 = 0) ∧ 0 ≤ kernel cfg0 (1 / 2) :=
  ⟨⟨by norm_num [cfg0], by norm_num [cfg0]⟩,
   fun i => by fin_cases i <;> norm_num [cfg0],
   fun h => (kernel_ring_sum_nonneg cfg0 2 ⟨by norm_num [cfg0], by norm_num [cfg0]⟩
     (fun i => by fin_cases i <;> norm_num [cfg0])).1 h,
   (kernel_ring_sum_nonneg cfg0 (1 / 2) ⟨by norm_num [cfg0], by norm_num [cfg0]⟩
     (fun i => by fin_cases i <;> norm_num [cfg0])).2.2⟩

/-- Claim C4: for every potential `u` and center `μ`, with width `σ > 0`,
`growth(u) = 2·bell(u, μ, σ) - 1` (σ floored at `0.001`), the value lies in
`[-1, 1]`, and it is exactly `1` at `u = μ`. -/
theorem growth_range_peak (cfg : Config) (u : ℝ) (_hs : 0 < cfg.sigma) :
    growth cfg u = 2 * bell u cfg.mu cfg.sigma - 1 ∧
    -1 ≤ growth cfg u ∧ growth cfg u ≤ 1 ∧
    (u = cfg.mu → growth cfg u = 1) := by
  have hexp0 : (0 : ℝ) < Real.exp (-(((u - cfg.mu) / max cfg.sigma 0.001) ^ 2) / 2) :=
    Real.exp_pos _
  have hexp1 : Real.exp (-(((u - cfg.mu) / max cfg.sigma 0.001) ^ 2) / 2) ≤ 1 := by
    apply Real.exp_le_one_iff.mpr
    have : (0 : ℝ) ≤ ((u - cfg.mu) / max cfg.sigma 0.001) ^ 2 := sq_nonneg _
    linarith
  refine ⟨rfl, by rw [growth]; linarith, by rw [growth]; linarith, fun h => ?_⟩
  rw [growth, h, sub_self, zero_div, zero_pow (by norm_num), neg_zero, zero_div, Real.exp_zero]
  norm_num

/-- Witness for C4 at the Orbium configuration: the growth rate peaks at `u = μ`. -/
theorem growth_range_peak_witness :
    (0 : ℝ) < cfg0.sigma ∧ growth cfg0 0.15 = 1 :=
  ⟨by norm_num [cfg0],
   (growth_range_peak cfg0 0.15 (by norm_num [cfg0])).2.2.2 (by norm_num [cfg0])⟩

/-- Claim C9: the local potential never divides by zero: either `kernelSum`
exceeds the positive epsilon `0.001` and `u = valueSum / kernelSum` with a
nonzero divisor, or `u = 0`. -/
theorem potential_division_guarded (cfg : Config) (f : Field) (p : Cell) :
    (0.001 < kernelSum cfg f p ∧
      potential cfg f p = valueSum cfg f p / kernelSum cfg f p ∧ kernelSum cfg f p ≠ 0) ∨
    (kernelSum cfg f p ≤ 0.001 ∧ potential cfg f p = 0) := by
  by_cases h : (0.001 : ℝ) < kernelSum cfg f p
  · exact Or.inl ⟨h, by rw [potential, if_pos h], ne_of_gt (lt_trans (by norm_num) h)⟩
  · exact Or.inr ⟨le_of_not_lt h, by rw [potential, if_neg h]⟩

lemma sampleAt_translate (s : Cell) (f : Field) (p : Cell) (dx dy : ℤ) :
    sampleAt (translate s f) p dx dy = sampleAt f (p + s) dx dy := by
  obtain ⟨px, py⟩ := p
  obtain ⟨sx, sy⟩ := s
  show f (px + (dx : ZMod 512) + sx, py + (dy : ZMod 512) + sy) =
    f (px + sx + (dx : ZMod 512), py + sy + (dy : ZMod 512))
  rw [add_right_comm px (dx : ZMod 512) sx, add_right_comm py (dy : ZMod 512) sy]

lemma termV_translate (cfg : Config) (s : Cell) (f : Field) (p : Cell) (dx dy : ℤ) :
    termV cfg (translate s f) p dx dy = termV cfg f (p + s) dx dy := by
  unfold termV
  rw [sampleAt_translate]

lemma termK_translate (cfg : Config) (s : Cell) (f : Field) (p : Cell) (dx dy : ℤ) :
    termK cfg (translate s f) p dx dy = termK cfg f (p + s) dx dy := by
  unfold termK
  rw [sampleAt_translate]

lemma valueSum_translate (cfg : Config) (s : Cell) (f : Field) (p : Cell) :
    valueSum cfg (translate s f) p = valueSum cfg f (p + s) :=
  Finset.sum_congr rfl (fun dy _ =>
    Finset.sum_congr rfl (fun dx _ => termV_translate cfg s f p dx dy))

lemma kernelSum_translate (cfg : Config) (s : Cell) (f : Field) (p : Cell) :
    kernelSum cfg (translate s f) p = kernelSum cfg f (p + s) :=
  Finset.sum_congr rfl (fun dy _ =>
    Finset.sum_congr rfl (fun dx _ => termK_translate cfg s f p dx dy))

lemma potential_translate (cfg : Config) (s : Cell) (f : Field) (p : Cell) :
    potential cfg (translate s f) p = potential cfg f (p + s) := by
  unfold potential
  rw [valueSum_translate, kernelSum_translate]

/-- Claim C8: the step engine is shift-equivariant on the torus: stepping a
translated field yields exactly the translation of the stepped field, for
every configuration, field and translation offset. -/
theorem step_shift_equivariant (cfg : Config) (f : Field) (s : Cell) :
    step cfg (translate s f) = translate s (step cfg f) := by
  funext p
  show clamp ((if inRange (translate s f p) then translate s f p else 0) +
      cfg.dt * growth cfg (potential cfg (translate s f) p)) 0 1 =
    clamp ((if inRange (f (p + s)) then f (p + s) else 0) +
      cfg.dt * growth cfg (potential cfg f (p + s))) 0 1
  rw [potential_translate]
  rfl

lemma valueSum_zero_field (cfg : Config) (p : Cell) :
    valueSum cfg (fun _ => 0) p = 0 := by
  unfold valueSum
  refine Finset.sum_eq_zero (fun dy _ => Finset.sum_eq_zero (fun dx _ => ?_))
  simp [termV, sampleAt, inRange]

lemma potential_zero_field (cfg : Config) (p : Cell) :
    potential cfg (fun _ => 0) p = 0 := by
  unfold potential
  rw [valueSum_zero_field]
  split
  · exact zero_div _
  · rfl

lemma step_zero_field (cfg : Config) (p : Cell) :
    step cfg (fun _ => 0) p = clamp (cfg.dt * growth cfg 0) 0 1 := by
  unfold step
  rw [potential_zero_field]
  simp [inRange]

lemma exp_neg_le_half {x : ℝ} (hx : 1 ≤ x) : Real.exp (-x) ≤ 1 / 2 := by
  have h1 : Real.exp (-x) ≤ Real.exp (-1) := Real.exp_le_exp.mpr (by linarith)
  have h2 : Real.exp (-(1 : ℝ)) ≤ 1 / 2 := by
    rw [Real.exp_neg, inv_le_iff_one_le_mul₀ (Real.exp_pos 1)]
    nlinarith [Real.add_one_le_exp (1 : ℝ)]
  linarith

lemma exp_neg_lt_half {x : ℝ} (hx : 1 < x) : Real.exp (-x) < 1 / 2 :=
  lt_of_lt_of_le (Real.exp_lt_exp.mpr (by linarith)) (exp_neg_le_half le_rfl)

/-- Counterexample to claim C7 as stated: `μ > 0` alone does not make the
zero field a fixed point.  With `μ = 0.001` and `σ = 0.1` the growth rate at
`u = 0` is close to `+1`, so one tick after clear-mode initialization the
cell value is about `0.1`, not `0`. -/
theorem clear_not_fixed_small_mu :
    0 < cfg7bad.mu ∧ 0 < cfg7bad.dt ∧
    ((step cfg7bad)^[1] (initField InitMode.clear [] rng0)) p0 ≠ 0 := by
  have hc : initField InitMode.clear [] rng0 = (fun _ => (0 : ℝ)) :=
    funext (fun _ => rfl)
  have hmax : max (0.1 : ℝ) 0.001 = 0.1 := max_eq_left (by norm_num)
  have hg : growth cfg7bad 0 = 2 * Real.exp (-(0.00005 : ℝ)) - 1 := by
    show 2 * Real.exp (-(((0 - (0.001 : ℝ)) / max (0.1 : ℝ) 0.001) ^ 2) / 2) - 1 = _
    rw [hmax]
    norm_num
  have hlo : (0.9999 : ℝ) ≤ growth cfg7bad 0 := by
    rw [hg]
    nlinarith [Real.add_one_le_exp (-(0.00005 : ℝ))]
  have hhi : growth cfg7bad 0 ≤ 1 := by
    rw [hg]
    nlinarith [Real.exp_le_one_iff.mpr (by norm_num : -(0.00005 : ℝ) ≤ 0)]
  have hdt : cfg7bad.dt = (0.1 : ℝ) := rfl
  have hval : ((step cfg7bad)^[1] (initField InitMode.clear [] rng0)) p0 =
      cfg7bad.dt * growth cfg7bad 0 := by
    rw [Function.iterate_one, hc, step_zero_field, clamp,
      max_eq_left (by rw [hdt]; nlinarith [hlo] : (0 : ℝ) ≤ cfg7bad.dt * growth cfg7bad 0),
      min_eq_left (by rw [hdt]; nlinarith [hhi] : cfg7bad.dt * growth cfg7bad 0 ≤ 1)]
  refine ⟨by norm_num [cfg7bad], by norm_num [cfg7bad], ?_⟩
  rw [hval, hdt]
  nlinarith [hlo]

/-- Claim C7 amended: the zero field (clear-mode initialization) is a fixed
point of the step engine for every configuration whose growth rate at `u = 0`
is nonpositive (for instance `μ` sufficiently above `σ`), for any `dt > 0`
and any number of ticks. -/
theorem clear_fixed_of_growth_nonpos (cfg : Config) (rng : ℕ → ℕ → ℝ) (n : ℕ) (p : Cell)
    (hg : growth cfg 0 ≤ 0) (hdt : 0 < cfg.dt) :
    ((step cfg)^[n] (initField InitMode.clear [] rng)) p = 0 := by
  have hc : initField InitMode.clear [] rng = (fun _ => (0 : ℝ)) :=
    funext (fun _ => rfl)
  rw [hc]
  have hfix : ∀ m : ℕ, (step cfg)^[m] (fun _ => (0 : ℝ)) = (fun _ => (0 : ℝ)) := by
    intro m
    induction m with
    | zero => rfl
    | succ k ih =>
        rw [Function.iterate_succ_apply', ih]
        funext q
        rw [step_zero_field, clamp,
          max_eq_right (mul_nonpos_of_nonneg_of_nonpos hdt.le hg),
          min_eq_left (by norm_num : (0 : ℝ) ≤ 1)]
  rw [hfix n]

/-- Witness for the amended C7 at the Orbium configuration
(`μ = 0.15, σ = 0.015`, so `growth(0) = 2·exp(-50) - 1 < 0`). -/
theorem clear_fixed_of_growth_nonpos_witness :
    growth cfg0 0 ≤ 0 ∧ 0 < cfg0.dt ∧
    ((step cfg0)^[3] (initField InitMode.clear [] rng0)) p0 = 0 := by
  have hmax : max (0.015 : ℝ) 0.001 = 0.015 := max_eq_left (by norm_num)
  have hg : growth cfg0 0 = 2 * Real.exp (-(50 : ℝ)) - 1 := by
    show 2 * Real.exp (-(((0 - (0.15 : ℝ)) / max (0.015 : ℝ) 0.001) ^ 2) / 2) - 1 = _
    rw [hmax]
    norm_num
  have hle : growth cfg0 0 ≤ 0 := by
    rw [hg]
    nlinarith [exp_neg_le_half (by norm_num : (1 : ℝ) ≤ 50)]
  exact ⟨hle, by norm_num [cfg0],
    clear_fixed_of_growth_nonpos cfg0 rng0 3 p0 hle (by norm_num [cfg0])⟩

/-- Counterexample to claim C2: the species loader never runs an R-keyed
species-blob initializer.  `Microbia` has `R = 7 ≤ 7` and `Oceania` has
`R = 25 > 7`, yet loading either produces the identical field — the
unconditional `'random'` mode, a single centered disk of radius 60 — so
neither the claimed 9-blob 3×3 arrangement for `R ≤ 7` nor the μ/σ-valued
single blob for `R > 7` exists. -/
theorem speciesBlob_threshold_counterexample :
    findSpecies "Microbia" = some microbia ∧ microbia.R ≤ 7 ∧
    findSpecies "Oceania" = some oceania ∧ 7 < oceania.R ∧
    (loadSpecies "Microbia" st0 rng0).1.2 = (loadSpecies "Oceania" st0 rng0).1.2 ∧
    (loadSpecies "Microbia" st0 rng0).1.2 = initField InitMode.random [] rng0 :=
  ⟨rfl, by norm_num [microbia], rfl, by norm_num [oceania], rfl, rfl⟩

/-- Claim C2 amended: loading any species found in the catalog applies its
parameters and then initializes via the unconditional `'random'` mode —
independent of the species' kernel radius `R` — namely exactly one centered
blob of radius 60 whose cells hold `Math.random()·0.5 + 0.25 ∈ [0.25, 0.75)`
and which is `0` outside that disk. -/
theorem loadSpecies_always_randomBlob (name : String) (sp : Species) (st : SimState)
    (rng : ℕ → ℕ → ℝ) (h : findSpecies name = some sp)
    (hrng : ∀ x y : ℕ, 0 ≤ rng x y ∧ rng x y < 1) :
    loadSpecies name st rng =
      ((applySpecies sp st.1, initField InitMode.random [] rng), some name) ∧
    ∀ x y : ℕ,
      (Real.sqrt (((x : ℝ) - 256) ^ 2 + ((y : ℝ) - 256) ^ 2) < 60 →
        0.25 ≤ initData InitMode.random [] rng x y ∧
          initData InitMode.random [] rng x y < 0.75) ∧
      (¬ Real.sqrt (((x : ℝ) - 256) ^ 2 + ((y : ℝ) - 256) ^ 2) < 60 →
        initData InitMode.random [] rng x y = 0) := by
  refine ⟨by unfold loadSpecies; rw [h], fun x y => ⟨fun hin => ?_, fun hout => ?_⟩⟩
  · rw [initData, if_pos hin]
    obtain ⟨h0, h1⟩ := hrng x y
    constructor <;> linarith
  · rw [initData, if_neg hout]

/-- Witness for the amended C2 at the Orbium preset and the all-zero
random stream. -/
theorem loadSpecies_always_randomBlob_witness :
    loadSpecies "Orbium" st0 rng0 =
      ((applySpecies orbium st0.1, initField InitMode.random [] rng0), some "Orbium") :=
  (loadSpecies_always_randomBlob "Orbium" orbium st0 rng0 rfl
    (fun _ _ => ⟨le_refl 0, by norm_num [rng0]⟩)).1

/-- Counterexample to claim C6: an invalid species name is not signaled to
the controller as a rejected-update outcome — the loader returns silently:
the state is retained but the controller-visible outcome is `none` (the
`onSpeciesChange` callback, the only outward signal, never fires). -/
theorem invalid_species_silent :
    findSpecies "Tetrabium" = none ∧
    (loadSpecies "Tetrabium" st0 rng0).1 = st0 ∧
    (loadSpecies "Tetrabium" st0 rng0).2 = none :=
  ⟨rfl, rfl, rfl⟩

/-- Claim C6 amended: an unknown species name is ignored silently — the
previously valid configuration and field are retained, and no outcome of any
kind is reported to the controller.  (Numeric validation of σ, kernelSigma,
R or β does not exist in the core; the shader instead floors σ at `0.001`
and kernelSigma at `0.01` at use time.) -/
theorem unknown_species_noop (name : String) (st : SimState) (rng : ℕ → ℕ → ℝ)
    (h : findSpecies name = none) :
    loadSpecies name st rng = (st, none) := by
  unfold loadSpecies
  rw [h]

/-- Witness for the amended C6 at a concrete unknown name. -/
theorem unknown_species_noop_witness :
    loadSpecies "Tetrabium" st0 rng0 = (st0, none) :=
  unknown_species_noop "Tetrabium" st0 rng0 rfl

/-- Claim C10: looking up a name that no catalog entry bears yields a
not-found outcome (`find` returns nothing), and the loader leaves every
current parameter and the field contents unchanged. -/
theorem unknown_name_lookup_noop (name : String) (st : SimState) (rng : ℕ → ℕ → ℝ)
    (h : ∀ sp ∈ speciesList, sp.name ≠ name) :
    findSpecies name = none ∧ loadSpecies name st rng = (st, none) := by
  have hf : findSpecies name = none := by
    unfold findSpecies
    apply List.find?_eq_none.mpr
    intro sp hsp
    simpa using h sp hsp
  exact ⟨hf, by unfold loadSpecies; rw [hf]⟩

/-- Witness for C10 at a concrete name absent from the catalog. -/
theorem unknown_name_lookup_noop_witness :
    findSpecies "Nonexistent" = none ∧
    loadSpecies "Nonexistent" st0 rng0 = (st0, none) :=
  unknown_name_lookup_noop "Nonexistent" st0 rng0 (by decide)

/-- Claim C5 amended: the step depends only on which cells pass the `[0,1]`
test and on the passing values — the magnitude of an out-of-range (NaN/Inf)
value never propagates and no error is raised.  An out-of-range neighborhood
sample, however, is dropped from both convolution sums rather than replaced
by `0` (an out-of-range current value is replaced by `0`). -/
theorem step_anomaly_masked (cfg : Config) (f g : Field) (p : Cell)
    (h : ∀ q : Cell, (inRange (f q) ↔ inRange (g q)) ∧ (inRange (f q) → f q = g q)) :
    step cfg f p = step cfg g p := by
  have hterm : ∀ dx dy : ℤ,
      termV cfg f p dx dy = termV cfg g p dx dy ∧
      termK cfg f p dx dy = termK cfg g p dx dy := by
    intro dx dy
    obtain ⟨hiff, heq⟩ := h (p.1 + (dx : ZMod 512), p.2 + (dy : ZMod 512))
    unfold termV termK sampleAt
    by_cases hin : inRange (f (p.1 + (dx : ZMod 512), p.2 + (dy : ZMod 512)))
    · rw [heq hin]
      exact ⟨rfl, rfl⟩
    · have hgn : ¬ inRange (g (p.1 + (dx : ZMod 512), p.2 + (dy : ZMod 512))) :=
        fun hg => hin (hiff.mpr hg)
      refine ⟨?_, ?_⟩ <;> rw [if_neg hin, if_neg hgn]
  have hV : valueSum cfg f p = valueSum cfg g p :=
    Finset.sum_congr rfl (fun dy _ =>
      Finset.sum_congr rfl (fun dx _ => (hterm dx dy).1))
  have hK : kernelSum cfg f p = kernelSum cfg g p :=
    Finset.sum_congr rfl (fun dy _ =>
      Finset.sum_congr rfl (fun dx _ => (hterm dx dy).2))
  unfold step potential
  rw [hV, hK]
  by_cases hp : inRange (f p)
  · rw [if_pos hp, if_pos ((h p).1.mp hp), (h p).2 hp]
  · rw [if_neg hp, if_neg (fun hg => hp ((h p).1.mpr hg))]

/-- Witness for the amended C5: two fields that are out of range everywhere
(with different anomalous magnitudes) step identically. -/
theorem step_anomaly_masked_witness :
    step cfg0 (fun _ => (2 : ℝ)) p0 = step cfg0 (fun _ => (3 : ℝ)) p0 :=
  step_anomaly_masked cfg0 (fun _ => 2) (fun _ => 3) p0
    (fun _ =>
      ⟨Iff.intro
        (fun h => absurd (show (0 : ℝ) ≤ 2 ∧ (2 : ℝ) ≤ 1 from h).2 (by norm_num))
        (fun h => absurd (show (0 : ℝ) ≤ 3 ∧ (3 : ℝ) ≤ 1 from h).2 (by norm_num)),
       fun h => absurd (show (0 : ℝ) ≤ 2 ∧ (2 : ℝ) ≤ 1 from h).2 (by norm_num)⟩)

lemma radius_cfg5 : radius cfg5.R = 1 := by
  show ⌊min (1.5 : ℝ) 50⌋ = 1
  norm_num

lemma maxR_cfg5 : max cfg5.R 1 = 1.5 := max_eq_left (by norm_num [cfg5])

lemma max_015_001 : max (0.15 : ℝ) 0.01 = 0.15 := max_eq_left (by norm_num)

lemma sampleAt_p0 (f : Field) (dx dy : ℤ) :
    sampleAt f p0 dx dy = f ((dx : ZMod 512), (dy : ZMod 512)) := by
  show f ((0 : ZMod 512) + (dx : ZMod 512), (0 : ZMod 512) + (dy : ZMod 512)) =
    f ((dx : ZMod 512), (dy : ZMod 512))
  rw [zero_add, zero_add]

lemma geomOk_cfg5 (dx dy : ℤ) (hdx : |dx| ≤ 1) (hdy : |dy| ≤ 1) :
    geomOk cfg5.R dx dy := by
  refine ⟨by rw [radius_cfg5]; exact hdy, by rw [radius_cfg5]; exact hdx, ?_⟩
  show dist dx dy ≤ (1.5 : ℝ)
  obtain ⟨hxl, hxr⟩ := abs_le.mp hdx
  obtain ⟨hyl, hyr⟩ := abs_le.mp hdy
  have hxl' : (-1 : ℝ) ≤ (dx : ℝ) := by exact_mod_cast hxl
  have hxr' : ((dx : ℝ)) ≤ 1 := by exact_mod_cast hxr
  have hyl' : (-1 : ℝ) ≤ (dy : ℝ) := by exact_mod_cast hyl
  have hyr' : ((dy : ℝ)) ≤ 1 := by exact_mod_cast hyr
  have hlt : dist dx dy < 1.5 := by
    unfold dist
    exact (Real.sqrt_lt' (by norm_num)).mpr (by nlinarith)
  linarith

lemma termV_out (f : Field) (p : Cell) (dx dy : ℤ)
    (h : ¬ |dy| ≤ 1 ∨ ¬ |dx| ≤ 1) : termV cfg5 f p dx dy = 0 := by
  unfold termV
  rw [if_neg]
  intro hg
  rcases h with h | h
  · exact h (radius_cfg5 ▸ hg.1)
  · exact h (radius_cfg5 ▸ hg.2.1)

lemma termK_out (f : Field) (p : Cell) (dx dy : ℤ)
    (h : ¬ |dy| ≤ 1 ∨ ¬ |dx| ≤ 1) : termK cfg5 f p dx dy = 0 := by
  unfold termK
  rw [if_neg]
  intro hg
  rcases h with h | h
  · exact h (radius_cfg5 ▸ hg.1)
  · exact h (radius_cfg5 ▸ hg.2.1)

lemma termV_in (f : Field) (dx dy : ℤ) (hdx : |dx| ≤ 1) (hdy : |dy| ≤ 1) :
    termV cfg5 f p0 dx dy =
      if inRange (f ((dx : ZMod 512), (dy : ZMod 512))) then
        f ((dx : ZMod 512), (dy : ZMod 512)) * kernel cfg5 (dist dx dy / 1.5)
      else 0 := by
  unfold termV
  rw [if_pos (geomOk_cfg5 dx dy hdx hdy), sampleAt_p0 f dx dy, maxR_cfg5]

lemma termK_in (f : Field) (dx dy : ℤ) (hdx : |dx| ≤ 1) (hdy : |dy| ≤ 1) :
    termK cfg5 f p0 dx dy =
      if inRange (f ((dx : ZMod 512), (dy : ZMod 512))) then
        kernel cfg5 (dist dx dy / 1.5)
      else 0 := by
  unfold termK
  rw [if_pos (geomOk_cfg5 dx dy hdx hdy), sampleAt_p0 f dx dy, maxR_cfg5]

lemma sum_Icc50_three (t : ℤ → ℝ) (h : ∀ d : ℤ, ¬ |d| ≤ 1 → t d = 0) :
    ∑ d ∈ Finset.Icc (-50 : ℤ) 50, t d = t (-1) + t 0 + t 1 := by
  rw [← Finset.sum_subset
    (by decide : Finset.Icc (-1 : ℤ) 1 ⊆ Finset.Icc (-50 : ℤ) 50)
    (fun x _ hx => h x (fun habs => hx (Finset.mem_Icc.mpr (abs_le.mp habs))))]
  rw [show Finset.Icc (-1 : ℤ) 1 = {-1, 0, 1} from by decide]
  rw [show ({-1, 0, 1} : Finset ℤ) = insert (-1) (insert 0 {1}) from rfl]
  rw [Finset.sum_insert (by decide), Finset.sum_insert (by decide), Finset.sum_singleton]
  ring

lemma kernel_cfg5 (r : ℝ) (h : r < 1) :
    kernel cfg5 r = Real.exp (-(((r - 0.5) / 0.15) ^ 2) / 2) := by
  rw [kernel, if_neg (by linarith)]
  rw [Finset.sum_range_succ, Finset.sum_range_succ, Finset.sum_range_succ,
    Finset.sum_range_one]
  norm_num [betaN, cfg5, max_015_001]

lemma kernel_cfg5_le_one (r : ℝ) (h : r < 1) : kernel cfg5 r ≤ 1 := by
  rw [kernel_cfg5 r h]
  apply Real.exp_le_one_iff.mpr
  have := sq_nonneg ((r - 0.5) / 0.15)
  linarith

lemma kernel_cfg5_nonneg (r : ℝ) (h : r < 1) : 0 ≤ kernel cfg5 r := by
  rw [kernel_cfg5 r h]
  exact (Real.exp_pos _).le

lemma rdiag_lt_one : Real.sqrt 2 / 1.5 < 1 := by
  have h2 : Real.sqrt 2 < 1.5 := (Real.sqrt_lt' (by norm_num)).mpr (by norm_num)
  exact (div_lt_one (by norm_num)).mpr h2

lemma KA_lb : (31 / 81 : ℝ) ≤ kernel cfg5 (1 / 1.5) := by
  rw [kernel_cfg5 _ (by norm_num)]
  have harg : (-((((1 / 1.5 : ℝ) - 0.5) / 0.15) ^ 2) / 2) = -(50 / 81 : ℝ) := by
    norm_num
  rw [harg]
  nlinarith [Real.add_one_le_exp (-(50 / 81 : ℝ))]

lemma termV_eq_termK_unit (cfg : Config) (f : Field)
    (hf : ∀ q : Cell, f q = 1 ∨ ¬ inRange (f q)) (p : Cell) (dx dy : ℤ) :
    termV cfg f p dx dy = termK cfg f p dx dy := by
  unfold termV termK sampleAt
  rcases hf (p.1 + (dx : ZMod 512), p.2 + (dy : ZMod 512)) with h1 | h2
  · rw [h1, one_mul]
  · rw [if_neg h2, if_neg h2]

lemma potential_gap (a b c : ℝ) (hb : (31 / 81 : ℝ) ≤ b) (ha0 : 0 ≤ a) (hc0 : 0 ≤ c)
    (ha1 : a ≤ 1) (_hb1 : b ≤ 1) (hc1 : c ≤ 1) :
    (0.001 : ℝ) < a + 3 * b + 4 * c ∧ (0.001 : ℝ) < a + 4 * b + 4 * c ∧
    (31 / 729 : ℝ) ≤ 1 - (a + 3 * b + 4 * c) / (a + 4 * b + 4 * c) := by
  have hTB : (0 : ℝ) < a + 4 * b + 4 * c := by nlinarith
  refine ⟨by nlinarith, by nlinarith, ?_⟩
  have key : 1 - (a + 3 * b + 4 * c) / (a + 4 * b + 4 * c) =
      b / (a + 4 * b + 4 * c) := by
    field_simp
    ring
  rw [key, le_div_iff₀ hTB]
  nlinarith

lemma growth_cfg5_neg (u : ℝ) (hu : (31 / 729 : ℝ) ≤ 1 - u) : growth cfg5 u < 0 := by
  show 2 * Real.exp (-(((u - 1) / max (0.001 : ℝ) 0.001) ^ 2) / 2) - 1 < 0
  rw [max_self]
  have hsq : (31 / 729 : ℝ) ^ 2 ≤ (u - 1) ^ 2 := by nlinarith
  have hxlarge : (1 : ℝ) < ((u - 1) / 0.001) ^ 2 / 2 := by
    have hrw : ((u - 1) / 0.001) ^ 2 / 2 = (u - 1) ^ 2 * 500000 := by ring
    rw [hrw]
    nlinarith
  have hexp := exp_neg_lt_half hxlarge
  rw [show (-(((u - 1) / 0.001) ^ 2) / 2 : ℝ) = -((((u - 1) / 0.001) ^ 2) / 2) from by
    ring]
  linarith

lemma growth_gt_negone (cfg : Config) (u : ℝ) : (-1 : ℝ) < growth cfg u := by
  unfold growth
  nlinarith [Real.exp_pos (-(((u - cfg.mu) / max cfg.sigma 0.001) ^ 2) / 2)]

lemma clamp_unit_bump : clamp (1 + 0.1 * 1) 0 1 = 1 := by
  unfold clamp
  rw [max_eq_left (by norm_num), min_eq_right (by norm_num)]

lemma clamp_lt_one_of_neg {g : ℝ} (hneg : g < 0) (hgt : (-1 : ℝ) < g) :
    clamp (1 + 0.1 * g) 0 1 < 1 := by
  unfold clamp
  rw [max_eq_left (by linarith)]
  exact lt_of_le_of_lt (min_le_left _ _) (by linarith)

lemma termV_update_eq_termK_A (dx dy : ℤ) :
    termV cfg5 (Function.update fieldA a0 0) p0 dx dy =
      termK cfg5 fieldA p0 dx dy := by
  have hin0 : inRange (0 : ℝ) := ⟨le_refl 0, by norm_num⟩
  have hnin2 : ¬ inRange (2 : ℝ) :=
    fun h => absurd (show (0 : ℝ) ≤ 2 ∧ (2 : ℝ) ≤ 1 from h).2 (by norm_num)
  unfold termV termK sampleAt
  by_cases hq : ((p0.1 + (dx : ZMod 512), p0.2 + (dy : ZMod 512)) : Cell) = a0
  · rw [hq, Function.update_same, show fieldA a0 = 2 from if_pos rfl]
    rw [if_pos hin0, if_neg hnin2, zero_mul]
  · rw [Function.update_noteq hq,
      show fieldA (p0.1 + (dx : ZMod 512), p0.2 + (dy : ZMod 512)) = 1 from if_neg hq,
      one_mul]

set_option maxHeartbeats 2000000 in
/-- Counterexample to claim C5 as stated: an out-of-range sampled value is
not "treated as exactly 0": the shader drops it from both `valueSum` and
`kernelSum`, which changes the normalization.  Concretely, over `cfg5`, a
field that is `1` everywhere except one out-of-range `2` at a neighbor of the
origin steps to exactly `1` there, while the same field with that cell set to
`0` steps to a value strictly below `1`. -/
theorem anomaly_not_zero_substitution :
    ¬ inRange (fieldA a0) ∧
    step cfg5 fieldA p0 ≠ step cfg5 (Function.update fieldA a0 0) p0 := by
  have hfa : fieldA a0 = 2 := if_pos rfl
  have hin1 : inRange (1 : ℝ) := ⟨by norm_num, le_refl 1⟩
  have hin0 : inRange (0 : ℝ) := ⟨le_refl 0, by norm_num⟩
  have hnin2 : ¬ inRange (2 : ℝ) :=
    fun h => absurd (show (0 : ℝ) ≤ 2 ∧ (2 : ℝ) ≤ 1 from h).2 (by norm_num)
  have hd00 : dist 0 0 = 0 := by unfold dist; norm_num [Real.sqrt_zero]
  have hd10 : dist 1 0 = 1 := by unfold dist; norm_num [Real.sqrt_one]
  have hdm0 : dist (-1) 0 = 1 := by unfold dist; norm_num [Real.sqrt_one]
  have hd01 : dist 0 1 = 1 := by unfold dist; norm_num [Real.sqrt_one]
  have hd0m : dist 0 (-1) = 1 := by unfold dist; norm_num [Real.sqrt_one]
  have hd11 : dist 1 1 = Real.sqrt 2 := by unfold dist; norm_num
  have hdm1 : dist (-1) 1 = Real.sqrt 2 := by unfold dist; norm_num
  have hd1m : dist 1 (-1) = Real.sqrt 2 := by unfold dist; norm_num
  have hdmm : dist (-1) (-1) = Real.sqrt 2 := by unfold dist; norm_num
  -- the nine loop contributions to `kernelSum` over `fieldA`
  have hAzz : termK cfg5 fieldA p0 0 0 = kernel cfg5 0 := by
    rw [termK_in fieldA 0 0 (by decide) (by decide),
      show fieldA (((0 : ℤ) : ZMod 512), ((0 : ℤ) : ZMod 512)) = 1 from if_neg (by decide),
      if_pos hin1, hd00]
    norm_num
  have hAm0 : termK cfg5 fieldA p0 (-1) 0 = kernel cfg5 (1 / 1.5) := by
    rw [termK_in fieldA (-1) 0 (by decide) (by decide),
      show fieldA (((-1 : ℤ) : ZMod 512), ((0 : ℤ) : ZMod 512)) = 1 from if_neg (by decide),
      if_pos hin1, hdm0]
  have hA0m : termK cfg5 fieldA p0 0 (-1) = kernel cfg5 (1 / 1.5) := by
    rw [termK_in fieldA 0 (-1) (by decide) (by decide),
      show fieldA (((0 : ℤ) : ZMod 512), ((-1 : ℤ) : ZMod 512)) = 1 from if_neg (by decide),
      if_pos hin1, hd0m]
  have hA01 : termK cfg5 fieldA p0 0 1 = kernel cfg5 (1 / 1.5) := by
    rw [termK_in fieldA 0 1 (by decide) (by decide),
      show fieldA (((0 : ℤ) : ZMod 512), ((1 : ℤ) : ZMod 512)) = 1 from if_neg (by decide),
      if_pos hin1, hd01]
  have hA10 : termK cfg5 fieldA p0 1 0 = 0 := by
    rw [termK_in fieldA 1 0 (by decide) (by decide),
      show ((((1 : ℤ) : ZMod 512), ((0 : ℤ) : ZMod 512)) : Cell) = a0 from by decide,
      hfa, if_neg hnin2]
  have hAmm : termK cfg5 fieldA p0 (-1) (-1) = kernel cfg5 (Real.sqrt 2 / 1.5) := by
    rw [termK_in fieldA (-1) (-1) (by decide) (by decide),
      show fieldA (((-1 : ℤ) : ZMod 512), ((-1 : ℤ) : ZMod 512)) = 1 from if_neg (by decide),
      if_pos hin1, hdmm]
  have hA1m : termK cfg5 fieldA p0 1 (-1) = kernel cfg5 (Real.sqrt 2 / 1.5) := by
    rw [termK_in fieldA 1 (-1) (by decide) (by decide),
      show fieldA (((1 : ℤ) : ZMod 512), ((-1 : ℤ) : ZMod 512)) = 1 from if_neg (by decide),
      if_pos hin1, hd1m]
  have hAm1 : termK cfg5 fieldA p0 (-1) 1 = kernel cfg5 (Real.sqrt 2 / 1.5) := by
    rw [termK_in fieldA (-1) 1 (by decide) (by decide),
      show fieldA (((-1 : ℤ) : ZMod 512), ((1 : ℤ) : ZMod 512)) = 1 from if_neg (by decide),
      if_pos hin1, hdm1]
  have hA11 : termK cfg5 fieldA p0 1 1 = kernel cfg5 (Real.sqrt 2 / 1.5) := by
    rw [termK_in fieldA 1 1 (by decide) (by decide),
      show fieldA (((1 : ℤ) : ZMod 512), ((1 : ℤ) : ZMod 512)) = 1 from if_neg (by decide),
      if_pos hin1, hd11]
  have rowAm : ∑ dx ∈ Finset.Icc (-50 : ℤ) 50, termK cfg5 fieldA p0 dx (-1) =
      kernel cfg5 (Real.sqrt 2 / 1.5) + kernel cfg5 (1 / 1.5) +
        kernel cfg5 (Real.sqrt 2 / 1.5) := by
    rw [sum_Icc50_three (fun dx => termK cfg5 fieldA p0 dx (-1))
      (fun d hd => termK_out fieldA p0 d (-1) (Or.inr hd))]
    simp only [hAmm, hA0m, hA1m]
  have rowAz : ∑ dx ∈ Finset.Icc (-50 : ℤ) 50, termK cfg5 fieldA p0 dx 0 =
      kernel cfg5 (1 / 1.5) + kernel cfg5 0 + 0 := by
    rw [sum_Icc50_three (fun dx => termK cfg5 fieldA p0 dx 0)
      (fun d hd => termK_out fieldA p0 d 0 (Or.inr hd))]
    simp only [hAm0, hAzz, hA10]
  have rowAp : ∑ dx ∈ Finset.Icc (-50 : ℤ) 50, termK cfg5 fieldA p0 dx 1 =
      kernel cfg5 (Real.sqrt 2 / 1.5) + kernel cfg5 (1 / 1.5) +
        kernel cfg5 (Real.sqrt 2 / 1.5) := by
    rw [sum_Icc50_three (fun dx => termK cfg5 fieldA p0 dx 1)
      (fun d hd => termK_out fieldA p0 d 1 (Or.inr hd))]
    simp only [hAm1, hA01, hA11]
  have hKsumA : kernelSum cfg5 fieldA p0 =
      kernel cfg5 0 + 3 * kernel cfg5 (1 / 1.5) +
        4 * kernel cfg5 (Real.sqrt 2 / 1.5) := by
    unfold kernelSum
    rw [sum_Icc50_three
      (fun dy => ∑ dx ∈ Finset.Icc (-50 : ℤ) 50, termK cfg5 fieldA p0 dx dy)
      (fun d hd => Finset.sum_eq_zero (fun dx _ => termK_out fieldA p0 dx d (Or.inl hd)))]
    simp only [rowAm, rowAz, rowAp]
    ring
  have hfAunit : ∀ q : Cell, fieldA q = 1 ∨ ¬ inRange (fieldA q) := by
    intro q
    by_cases hq : q = a0
    · right
      rw [hq, hfa]
      exact hnin2
    · left
      exact if_neg hq
  have hVsumA : valueSum cfg5 fieldA p0 = kernelSum cfg5 fieldA p0 :=
    Finset.sum_congr rfl (fun dy _ => Finset.sum_congr rfl (fun dx _ =>
      termV_eq_termK_unit cfg5 fieldA hfAunit p0 dx dy))
  -- the substituted field
  have hFBsame : ∀ dx dy : ℤ, ¬(((dx : ZMod 512), (dy : ZMod 512)) : Cell) = a0 →
      termK cfg5 (Function.update fieldA a0 0) p0 dx dy =
        termK cfg5 fieldA p0 dx dy := by
    intro dx dy hne
    unfold termK
    rw [sampleAt_p0, sampleAt_p0, Function.update_noteq hne]
  have hB10 : termK cfg5 (Function.update fieldA a0 0) p0 1 0 =
      kernel cfg5 (1 / 1.5) := by
    rw [termK_in _ 1 0 (by decide) (by decide),
      show ((((1 : ℤ) : ZMod 512), ((0 : ℤ) : ZMod 512)) : Cell) = a0 from by decide,
      Function.update_same, if_pos hin0, hd10]
  have rowBm : ∑ dx ∈ Finset.Icc (-50 : ℤ) 50,
      termK cfg5 (Function.update fieldA a0 0) p0 dx (-1) =
      kernel cfg5 (Real.sqrt 2 / 1.5) + kernel cfg5 (1 / 1.5) +
        kernel cfg5 (Real.sqrt 2 / 1.5) := by
    rw [sum_Icc50_three (fun dx => termK cfg5 (Function.update fieldA a0 0) p0 dx (-1))
      (fun d hd => termK_out _ p0 d (-1) (Or.inr hd))]
    simp only [hFBsame (-1) (-1) (by decide), hFBsame 0 (-1) (by decide),
      hFBsame 1 (-1) (by decide), hAmm, hA0m, hA1m]
  have rowBz : ∑ dx ∈ Finset.Icc (-50 : ℤ) 50,
      termK cfg5 (Function.update fieldA a0 0) p0 dx 0 =
      kernel cfg5 (1 / 1.5) + kernel cfg5 0 + kernel cfg5 (1 / 1.5) := by
    rw [sum_Icc50_three (fun dx => termK cfg5 (Function.update fieldA a0 0) p0 dx 0)
      (fun d hd => termK_out _ p0 d 0 (Or.inr hd))]
    simp only [hFBsame (-1) 0 (by decide), hFBsame 0 0 (by decide), hAm0, hAzz, hB10]
  have rowBp : ∑ dx ∈ Finset.Icc (-50 : ℤ) 50,
      termK cfg5 (Function.update fieldA a0 0) p0 dx 1 =
      kernel cfg5 (Real.sqrt 2 / 1.5) + kernel cfg5 (1 / 1.5) +
        kernel cfg5 (Real.sqrt 2 / 1.5) := by
    rw [sum_Icc50_three (fun dx => termK cfg5 (Function.update fieldA a0 0) p0 dx 1)
      (fun d hd => termK_out _ p0 d 1 (Or.inr hd))]
    simp only [hFBsame (-1) 1 (by decide), hFBsame 0 1 (by decide),
      hFBsame 1 1 (by decide), hAm1, hA01, hA11]
  have hKsumB : kernelSum cfg5 (Function.update fieldA a0 0) p0 =
      kernel cfg5 0 + 4 * kernel cfg5 (1 / 1.5) +
        4 * kernel cfg5 (Real.sqrt 2 / 1.5) := by
    unfold kernelSum
    rw [sum_Icc50_three
      (fun dy => ∑ dx ∈ Finset.Icc (-50 : ℤ) 50,
        termK cfg5 (Function.update fieldA a0 0) p0 dx dy)
      (fun d hd => Finset.sum_eq_zero (fun dx _ => termK_out _ p0 dx d (Or.inl hd)))]
    simp only [rowBm, rowBz, rowBp]
    ring
  have hVB : valueSum cfg5 (Function.update fieldA a0 0) p0 =
      kernelSum cfg5 fieldA p0 :=
    Finset.sum_congr rfl (fun dy _ => Finset.sum_congr rfl (fun dx _ =>
      termV_update_eq_termK_A dx dy))
  -- kernel weight bounds
  set K0 := kernel cfg5 0 with hK0d
  set KA := kernel cfg5 (1 / 1.5) with hKAd
  set KD := kernel cfg5 (Real.sqrt 2 / 1.5) with hKDd
  obtain ⟨hT_pos, hTB_pos, h1u⟩ :=
    potential_gap K0 KA KD KA_lb (kernel_cfg5_nonneg 0 (by norm_num))
      (kernel_cfg5_nonneg _ rdiag_lt_one) (kernel_cfg5_le_one 0 (by norm_num))
      (kernel_cfg5_le_one _ (by norm_num)) (kernel_cfg5_le_one _ rdiag_lt_one)
  -- the two local potentials
  have hUA : potential cfg5 fieldA p0 = 1 := by
    unfold potential
    rw [hVsumA, hKsumA, if_pos hT_pos]
    exact div_self (ne_of_gt (lt_trans (by norm_num) hT_pos))
  have hUB : potential cfg5 (Function.update fieldA a0 0) p0 =
      (K0 + 3 * KA + 4 * KD) / (K0 + 4 * KA + 4 * KD) := by
    unfold potential
    rw [hVB, hKsumA, hKsumB, if_pos hTB_pos]
  -- the two growth rates
  have hgA : growth cfg5 1 = 1 := by
    show 2 * Real.exp (-((((1 : ℝ) - 1) / max (0.001 : ℝ) 0.001) ^ 2) / 2) - 1 = 1
    norm_num [Real.exp_zero]
  have hgB_lt : growth cfg5 ((K0 + 3 * KA + 4 * KD) / (K0 + 4 * KA + 4 * KD)) < 0 :=
    growth_cfg5_neg _ h1u
  have hgB_gt : (-1 : ℝ) <
      growth cfg5 ((K0 + 3 * KA + 4 * KD) / (K0 + 4 * KA + 4 * KD)) :=
    growth_gt_negone cfg5 _
  -- the two stepped values at the origin
  have hfApin : fieldA p0 = 1 := if_neg (by decide)
  have hstepA : step cfg5 fieldA p0 = 1 := by
    unfold step
    rw [hUA, hgA, hfApin, if_pos hin1, show cfg5.dt = (0.1 : ℝ) from rfl]
    exact clamp_unit_bump
  have hupd_p0 : Function.update fieldA a0 0 p0 = 1 := by
    rw [Function.update_noteq (by decide : p0 ≠ a0)]
    exact if_neg (by decide)
  have hstepB_lt : step cfg5 (Function.update fieldA a0 0) p0 < 1 := by
    unfold step
    rw [hUB, hupd_p0, if_pos hin1, show cfg5.dt = (0.1 : ℝ) from rfl]
    exact clamp_lt_one_of_neg hgB_lt hgB_gt
  refine ⟨fun h => hnin2 (hfa ▸ h), ?_⟩
  rw [hstepA]
  exact ne_of_gt hstepB_lt
